import Mathlib

/-!
Verification of the kconfiglib parser/resolver (crates/kconfiglib) against its
natural-language specification.  The Rust sources are shallowly embedded:
pure functions become Lean functions, the stateful scanner becomes explicit
state passing, fallible code returns an explicit result type, and loops whose
termination depends on external collaborators take an explicit recursion
budget (`Res.fuel` marks budget exhaustion, distinct from a program error).
`Located<...>` wrappers are kept only where a claim concerns locations (the
character scanner, the path cache); elsewhere they are location metadata used
purely for diagnostics and are omitted from the embedding.
-/

namespace KC

/-! ## Error model (parser/error.rs)

`KConfigError` in the source carries a kind, an optional `Location` and a
backtrace; only the kind determines control flow, so the embedding uses the
kind directly (locations/backtraces are diagnostics). -/

/-- Sub-kinds of `std::io::Error` distinguished by the resolver
(`NotFound | PermissionDenied | Other`, spec section 6). -/
inductive IoErrorKind where
  | notFound
  | permissionDenied
  | otherIo
deriving DecidableEq, Repr

/-- The `Expected` enum of parser/error.rs (payload-free description of what
the parser wanted to see). -/
inductive Expected where
  | any
  | binOp
  | endChoice
  | endIf
  | endMenu
  | env
  | eol
  | eq
  | expr
  | help
  | hexDigit
  | keywordOrSymbol
  | kwIf
  | ifOrEol
  | integerLiteral
  | litValue
  | on
  | oneOf (cs : List Char)
  | rparen
  | stringLiteral
  | symbol
  | symbolOrValue
  | unicodeEscape
  | whitespace
deriving DecidableEq, Repr

/-- The `KConfigErrorKind` enum of parser/error.rs. -/
inductive KConfigErrorKind where
  | invalidEnv (v : String)
  | invalidInteger (v : String)
  | invalidUnicode (n : Nat)
  | io (k : IoErrorKind)
  | missing (e : Expected)
  | parseErr (s : String)
  | syntaxErr (s : String)
  | unexpected (found : String) (e : Expected)
  | unexpectedEof (e : Expected)
  | unknownEnv (v : String)
deriving DecidableEq, Repr

/-- Result of a fallible computation that also carries a recursion budget.
`ok`/`err` mirror Rust's `Ok`/`Err(KConfigError)`; `fuel` is a modelling
artifact marking budget exhaustion (never produced for sufficient fuel) and is
distinct from both success and a program error. -/
inductive Res (α : Type) where
  | ok (a : α)
  | err (e : KConfigErrorKind)
  | fuel
deriving DecidableEq, Repr

def Res.bind {α β : Type} : Res α → (α → Res β) → Res β
  | .ok a, f => f a
  | .err e, _ => .err e
  | .fuel, _ => .fuel

instance : Monad Res where
  pure := Res.ok
  bind := Res.bind

/-! ## Expressions (parser/expr.rs) -/

/-- Comparison operators (`ExprCmpOp` in expr.rs). -/
inductive ExprCmpOp where
  | eq
  | ne
  | lt
  | le
  | gt
  | ge
deriving DecidableEq, Repr

/-- The expression tree (`Expr` in expr.rs).  Rust's `Hex(u64)` is modelled
with `Nat` and `Integer(i64)` with `Int` (no claim depends on overflow);
`Located<Box<Expr>>` children drop the location wrapper. -/
inductive Expr where
  | sym (s : String)
  | hex (n : Nat)
  | int (i : Int)
  | str (s : String)
  | cmp (op : ExprCmpOp) (lhs rhs : Expr)
  | not (e : Expr)
  | and (lhs rhs : Expr)
  | or (lhs rhs : Expr)
deriving DecidableEq, Repr

/-! ## Tokens (parser/token.rs) -/

/-- The `Token` enum of parser/token.rs (locations dropped; `LocToken` is a
token plus a location). -/
inductive Token where
  | hexLit (n : Nat)
  | intLit (i : Int)
  | strLit (s : String)
  | sym (s : String)
  | bool
  | hex
  | int
  | string
  | tristate
  | defBool
  | defHex
  | defInt
  | defString
  | defTristate
  | choice
  | comment
  | config
  | defConfigList
  | endChoice
  | help
  | mainmenu
  | menu
  | endMenu
  | menuConfig
  | modules
  | prompt
  | allNoConfigY
  | default
  | depends
  | env
  | imply
  | option
  | optional
  | range
  | select
  | visible
  | source
  | rsource
  | osource
  | orsource
  | lparen
  | rparen
  | kwIf
  | endIf
  | on
  | bang
  | ne
  | eq
  | ge
  | gt
  | le
  | lt
  | land
  | lor
deriving Repr

/-- Model of `impl Display for Token` (token.rs): the text each token renders as.
Hex literals render via Rust's `{h:#x}` (lowercase hex with `0x`). -/
def natToHex (n : Nat) : String :=
  Nat.toDigits 16 n |> String.mk

/-- Rust `{s:?}` (Debug) formatting for strings: double quotes with the
common escapes.  Control characters other than the named ones use the
`\u` escape form. -/
def rustDebugChar (c : Char) : String :=
  if c = '"' then "\\\""
  else if c = '\\' then "\\\\"
  else if c = '\n' then "\\n"
  else if c = '\t' then "\\t"
  else if c = '\r' then "\\r"
  else if c.toNat < 32 then "\\u\x7b" ++ natToHex c.toNat ++ "\x7d"
  else String.singleton c

def rustDebugStr (s : String) : String :=
  "\"" ++ String.join (s.toList.map rustDebugChar) ++ "\""

def Token.display : Token → String
  | .hexLit n => "0x" ++ natToHex n
  | .intLit i => toString i
  | .strLit s => rustDebugStr s
  | .sym s => s
  | .bool => "bool"
  | .hex => "hex"
  | .int => "int"
  | .string => "string"
  | .tristate => "tristate"
  | .defBool => "def_bool"
  | .defHex => "def_hex"
  | .defInt => "def_int"
  | .defString => "def_string"
  | .defTristate => "def_tristate"
  | .choice => "choice"
  | .comment => "comment"
  | .config => "config"
  | .defConfigList => "defconfig_list"
  | .endChoice => "endchoice"
  | .help => "help"
  | .mainmenu => "mainmenu"
  | .menu => "menu"
  | .endMenu => "endmenu"
  | .menuConfig => "menuconfig"
  | .modules => "modules"
  | .prompt => "prompt"
  | .allNoConfigY => "allnoconfig_y"
  | .default => "default"
  | .depends => "depends"
  | .env => "env"
  | .imply => "imply"
  | .option => "option"
  | .optional => "optional"
  | .range => "range"
  | .select => "select"
  | .visible => "visible"
  | .source => "source"
  | .rsource => "rsource"
  | .osource => "osource"
  | .orsource => "orsource"
  | .lparen => "("
  | .rparen => ")"
  | .kwIf => "if"
  | .endIf => "endif"
  | .on => "on"
  | .bang => "!"
  | .ne => "!="
  | .eq => "="
  | .ge => ">="
  | .gt => ">"
  | .le => "<="
  | .lt => "<"
  | .land => "&&"
  | .lor => "||"

/-! ## Expression parser (parser/expr.rs)

The Rust parser walks a `TokenLine` cursor; the embedding passes the list of
tokens still to be consumed.  The mutual recursion
`parse_top → parse_or → ... → parse_paren → parse_top` terminates in Rust
because every cycle consumes a token; the embedding makes this explicit with
a recursion budget (first argument), decremented on every call. -/

mutual

/-- Model of `Expr::parse_top` (expr.rs): dispatches to the OR level. -/
def Expr.parseTop : Nat → List Token → Res (Expr × List Token)
  | 0, _ => .fuel
  | n + 1, ts => Expr.parseOr n ts

/-- Model of `Expr::parse_or` (expr.rs): parses the AND level, then if `||` follows,
consumes it and recurses back to the full expression grammar on the right. -/
def Expr.parseOr : Nat → List Token → Res (Expr × List Token)
  | 0, _ => .fuel
  | n + 1, ts => do
    let (lhs, rest) ← Expr.parseAnd n ts
    match rest with
    | .lor :: rest2 => do
      let (rhs, rest3) ← Expr.parseTop n rest2
      pure (.or lhs rhs, rest3)
    | _ => pure (lhs, rest)

/-- Model of `Expr::parse_and` (expr.rs). -/
def Expr.parseAnd : Nat → List Token → Res (Expr × List Token)
  | 0, _ => .fuel
  | n + 1, ts => do
    let (lhs, rest) ← Expr.parseComparison n ts
    match rest with
    | .land :: rest2 => do
      let (rhs, rest3) ← Expr.parseTop n rest2
      pure (.and lhs rhs, rest3)
    | _ => pure (lhs, rest)

/-- Model of `Expr::parse_comparison` (expr.rs). -/
def Expr.parseComparison : Nat → List Token → Res (Expr × List Token)
  | 0, _ => .fuel
  | n + 1, ts => do
    let (lhs, rest) ← Expr.parseUnaryNot n ts
    match rest with
    | .eq :: rest2 => do
      let (rhs, rest3) ← Expr.parseTop n rest2
      pure (.cmp .eq lhs rhs, rest3)
    | .ne :: rest2 => do
      let (rhs, rest3) ← Expr.parseTop n rest2
      pure (.cmp .ne lhs rhs, rest3)
    | .lt :: rest2 => do
      let (rhs, rest3) ← Expr.parseTop n rest2
      pure (.cmp .lt lhs rhs, rest3)
    | .le :: rest2 => do
      let (rhs, rest3) ← Expr.parseTop n rest2
      pure (.cmp .le lhs rhs, rest3)
    | .gt :: rest2 => do
      let (rhs, rest3) ← Expr.parseTop n rest2
      pure (.cmp .gt lhs rhs, rest3)
    | .ge :: rest2 => do
      let (rhs, rest3) ← Expr.parseTop n rest2
      pure (.cmp .ge lhs rhs, rest3)
    | _ => pure (lhs, rest)

/-- Model of `Expr::parse_unary_not` (expr.rs): `!` recurses back to the full
expression grammar (not just the next tighter level). -/
def Expr.parseUnaryNot : Nat → List Token → Res (Expr × List Token)
  | 0, _ => .fuel
  | n + 1, ts =>
    match ts with
    | [] => .err (.missing .expr)
    | .bang :: rest => do
      let (e, rest2) ← Expr.parseTop n rest
      pure (.not e, rest2)
    | _ => Expr.parseTerminal n ts

/-- Model of `Expr::parse_terminal` (expr.rs). -/
def Expr.parseTerminal : Nat → List Token → Res (Expr × List Token)
  | 0, _ => .fuel
  | n + 1, ts =>
    match ts with
    | [] => .err (.missing .expr)
    | .sym s :: rest => .ok (.sym s, rest)
    | .hexLit i :: rest => .ok (.hex i, rest)
    | .intLit i :: rest => .ok (.int i, rest)
    | .strLit s :: rest => .ok (.str s, rest)
    | .lparen :: _ => Expr.parseParen n ts
    | t :: _ => .err (.unexpected t.display .expr)

/-- Model of `Expr::parse_paren` (expr.rs): consumes `(`, a full expression, `)`. -/
def Expr.parseParen : Nat → List Token → Res (Expr × List Token)
  | 0, _ => .fuel
  | n + 1, ts =>
    match ts with
    | [] => .err (.missing .expr)
    | .lparen :: rest => do
      let (e, rest2) ← Expr.parseTop n rest
      match rest2 with
      | [] => .err (.missing .rparen)
      | .rparen :: rest3 => pure (e, rest3)
      | t :: _ => .err (.unexpected t.display .rparen)
    | t :: _ => .err (.unexpected t.display .expr)

end

/-- Model of `Expr::parse` (expr.rs): a full expression; after it, only an `if`
keyword may remain on the line (anything else is an "expected end-of-line"
error).  Returns the expression and the unconsumed tokens. -/
def Expr.parse (n : Nat) (ts : List Token) : Res (Expr × List Token) := do
  let (e, rest) ← Expr.parseTop n ts
  match rest with
  | .kwIf :: _ => pure (e, rest)
  | t :: _ => .err (.unexpected t.display .eol)
  | [] => pure (e, rest)

/-! ## Character scanner (parser/streams.rs, `PeekableChars`)

The Rust scanner holds the whole input string, a byte offset and a
`Location` (filename, 1-based line, column).  The embedding keeps the suffix
of characters still to be read together with the byte offset of that suffix
(`offset` = bytes already consumed, so `base.len() = offset + utf8Len
remaining`); the filename is dropped (pure diagnostics).  Byte offsets use
`Char.utf8Size`, mirroring `char::len_utf8`. -/

/-- Total UTF-8 byte length of a list of characters. -/
def utf8Len (cs : List Char) : Nat := (cs.map Char.utf8Size).sum

/-- The scanner state: characters not yet consumed, the byte offset of the
current position, and the current line/column. -/
structure PeekableChars where
  remaining : List Char
  offset : Nat
  line : Nat
  column : Nat
deriving DecidableEq, Repr

/-- Model of `PeekableChars::peek`: next character without consuming. -/
def PeekableChars.peek (s : PeekableChars) : Option Char := s.remaining.head?

/-- Model of `PeekableChars::is_empty`. -/
def PeekableChars.isEmpty (s : PeekableChars) : Bool := s.remaining.isEmpty

/-- Model of `str::starts_with` on the unread suffix (used via `Deref` in Rust). -/
def PeekableChars.startsWithChars (s : PeekableChars) (pre : List Char) : Bool :=
  pre.isPrefixOf s.remaining

/-- Model of `Iterator::next for PeekableChars` (streams.rs): consume one character,
advance the byte offset by its UTF-8 size; a newline increments the line and
resets the column to 1, any other character advances the column by 1. -/
def PeekableChars.next : PeekableChars → Option (Char × PeekableChars)
  | ⟨[], _, _, _⟩ => none
  | ⟨c :: rest, off, l, col⟩ =>
    some (c, ⟨rest, off + c.utf8Size,
      if c = '\n' then l + 1 else l,
      if c = '\n' then 1 else col + 1⟩)

/-- The `for c in chars` loop inside `PeekableChars::advance` (streams.rs).
`none` models a panic.  Note the loop `break`s as soon as the offset reaches
the target, *before* performing the line/column update for that final
character; an offset overshooting the target is the "not a char boundary"
panic.  The `[]` case models the trailing `assert_eq!(self.offset, target)`. -/
def PeekableChars.advanceGo : List Char → Nat → Nat → Nat → Nat → Option PeekableChars
  | [], off, target, l, col =>
    if off = target then some ⟨[], off, l, col⟩ else none
  | c :: rest, off, target, l, col =>
    let off' := off + c.utf8Size
    if off' = target then some ⟨rest, off', l, col⟩
    else if off' > target then none
    else if c = '\n' then PeekableChars.advanceGo rest off' target (l + 1) 1
    else PeekableChars.advanceGo rest off' target l (col + 1)

/-- Model of `PeekableChars::advance` (streams.rs): bulk-skip `n` bytes.  `n = 0`
returns immediately; a target past the end of the string is a panic
(modelled as `none`), as is a target that is not a character boundary. -/
def PeekableChars.advance (s : PeekableChars) (n : Nat) : Option PeekableChars :=
  if n = 0 then some s
  else
    let target := s.offset + n
    if target > s.offset + utf8Len s.remaining then none
    else PeekableChars.advanceGo s.remaining s.offset target s.line s.column

/-- The loop of `PeekableChars::read_until` (streams.rs): consume characters
until the predicate matches (location updated for every consumed character). -/
def readUntilGo (p : Char → Bool) : List Char → Nat → Nat → Nat → (List Char × PeekableChars)
  | [], off, l, col => ([], ⟨[], off, l, col⟩)
  | c :: rest, off, l, col =>
    if p c then ([], ⟨c :: rest, off, l, col⟩)
    else
      let r := readUntilGo p rest (off + c.utf8Size)
        (if c = '\n' then l + 1 else l) (if c = '\n' then 1 else col + 1)
      (c :: r.1, r.2)

/-- Model of `PeekableChars::read_until` (streams.rs). -/
def PeekableChars.readUntil (s : PeekableChars) (p : Char → Bool) : String × PeekableChars :=
  let r := readUntilGo p s.remaining s.offset s.line s.column
  (String.mk r.1, r.2)

/-! ## Block data model (parser/{types,lit_value,prompt,config,choice,source,block,menu}.rs)

`Located<...>` wrappers on fields are dropped (location metadata).  The
`IfBlock` and `Menu` structs are inlined into their `Block` constructors so
that `Block` is a single nested inductive. -/

/-- Model of `Tristate` (lit_value.rs). -/
inductive Tristate where
  | tFalse
  | tTrue
  | tMaybe
deriving DecidableEq, Repr

/-- Model of `Type` (types.rs); named `KType` because `Type` is a Lean keyword. -/
inductive KType where
  | unknown
  | bool
  | tristate
  | string
  | int
  | hex
deriving DecidableEq, Repr

/-- Model of `LitValue` (lit_value.rs). -/
inductive LitValue where
  | hex (n : Nat)
  | int (i : Int)
  | string (s : String)
  | symbol (s : String)
  | tristate (t : Tristate)
deriving DecidableEq, Repr

/-- Model of `Prompt` (prompt.rs). -/
structure Prompt where
  title : String
  condition : Option Expr
deriving DecidableEq, Repr

/-- Model of `ConfigDefault` (config.rs). -/
structure ConfigDefault where
  value : Expr
  condition : Option Expr
deriving DecidableEq, Repr

/-- Model of `ConfigTarget` (config.rs): target of a `select`/`imply`. -/
structure ConfigTarget where
  target : String
  condition : Option Expr
deriving DecidableEq, Repr

/-- Model of `ConfigRange` (config.rs); `end` is a Lean keyword, hence `ending`. -/
structure ConfigRange where
  start : LitValue
  ending : LitValue
  condition : Option Expr
deriving DecidableEq, Repr

/-- Model of `Config` (config.rs), covering both `config` and `menuconfig` entries. -/
structure Config where
  name : String
  ty : KType
  prompt : Prompt
  defaults : List ConfigDefault
  env : Option String
  dependsOn : List Expr
  selects : List ConfigTarget
  implies : List ConfigTarget
  ranges : List ConfigRange
  help : Option String
  comments : List String
deriving DecidableEq, Repr

/-- Model of `ChoiceDefault` (choice.rs). -/
structure ChoiceDefault where
  target : String
  condition : Option Expr
deriving DecidableEq, Repr

/-- Model of `Choice` (choice.rs). -/
structure Choice where
  name : String
  prompt : Option Prompt
  help : Option String
  configs : List Config
  defaults : List ChoiceDefault
  dependsOn : List Expr
deriving DecidableEq, Repr

/-- Model of `Source` (source.rs): a `source`/`osource`/`rsource`/`orsource`
statement.  Paths are modelled as strings. -/
structure Source where
  filename : String
  optional : Bool
  relative : Bool
  baseDir : String
deriving DecidableEq, Repr

/-- Model of `Block` (block.rs) with `IfBlock` (condition, items) and `Menu`
(prompt, blocks, depends_on, visibility, comments) inlined. -/
inductive Block where
  | choice (c : Choice)
  | config (c : Config)
  | ifBlk (condition : Expr) (items : List Block)
  | mainmenu (title : String)
  | menu (prompt : String) (blocks : List Block) (dependsOn : List Expr)
      (visibility : Option Expr) (comments : List String)
  | menuConfig (c : Config)
  | source (s : Source)

/-! ## Resolver (block.rs, `LocatedBlocks::resolve_blocks_recursive` and
`IfBlock::evaluate`) -/

/-- The per-item `match item.as_mut()` inside `IfBlock::evaluate` (block.rs):
append the if-condition to the dependency list of a `Choice`, `Config`,
`Menu` or `MenuConfig`; leave `Mainmenu` and `Source` untouched (`_ => ()`);
a nested `If` is intercepted by the caller before this runs. -/
def pushCond (cond : Expr) : Block → Block
  | .choice c => .choice { c with dependsOn := c.dependsOn ++ [cond] }
  | .config c => .config { c with dependsOn := c.dependsOn ++ [cond] }
  | .menu p bs dep vis com => .menu p bs (dep ++ [cond]) vis com
  | .menuConfig c => .menuConfig { c with dependsOn := c.dependsOn ++ [cond] }
  | b => b

/-- Model of `IfBlock::evaluate` (block.rs): flatten an if-block's items under the
condition `cond`.  A nested if-block first has its condition replaced by
`And(outer, inner)` and is then evaluated recursively, its results spliced
at its position; every other item gets `cond` appended to its dependency
list.  The Rust signature returns `Result` but no error path exists, so the
embedding is pure. -/
def ifEvaluate : Expr → List Block → List Block
  | _, [] => []
  | cond, .ifBlk c2 items2 :: rest =>
    ifEvaluate (.and cond c2) items2 ++ ifEvaluate cond rest
  | cond, b :: rest => pushCond cond b :: ifEvaluate cond rest
termination_by _ bs => sizeOf bs
decreasing_by all_goals (simp_wf <;> omega)

/-- The `while i < self.len()` loop of
`impl LocatedBlocks for Vec<Located<Block>> :: resolve_blocks_recursive`
(block.rs).  `acc` holds the elements before index `i` (already kept /
resolved), the third argument the elements from index `i` on.  A `Source` at
`i` is removed and its evaluation result appended at the *end* of the vector
(`self.extend(blocks)`), likewise an `If` block's flattening; a `Menu` has
its own blocks resolved recursively (`Block::resolve_blocks_recursive`
recurses only into `Menu`); everything else is kept and `i` advances.
`E` abstracts `Source::evaluate(base_dir, context)` — reading, parsing and
expanding the sourced file, code whose collaborators (file system, variable
context) are outside the embedding.  The first argument is the recursion
budget (the Rust loop's termination depends on what `E` returns). -/
def resolveGo (E : Source → Except KConfigErrorKind (List Block)) :
    Nat → List Block → List Block → Res (List Block)
  | 0, _, _ => .fuel
  | _ + 1, acc, [] => .ok acc
  | n + 1, acc, b :: rest =>
    match b with
    | .source s =>
      match E s with
      | .ok bs => resolveGo E n acc (rest ++ bs)
      | .error e => .err e
    | .ifBlk c items => resolveGo E n acc (rest ++ ifEvaluate c items)
    | .menu p bs dep vis com =>
      match resolveGo E n [] bs with
      | .ok bs2 => resolveGo E n (acc ++ [.menu p bs2 dep vis com]) rest
      | .err e => .err e
      | .fuel => .fuel
    | _ => resolveGo E n (acc ++ [b]) rest

/-- Entry point of the resolver on a block list (the tree root's `blocks`). -/
def resolveBlocks (E : Source → Except KConfigErrorKind (List Block))
    (fuel : Nat) (blocks : List Block) : Res (List Block) :=
  resolveGo E fuel [] blocks

mutual

/-- A block is fully resolved: it is not an `If` or `Source` node, and every
block list nested inside a `Menu` is fully resolved as well. -/
def blockResolved : Block → Bool
  | .choice _ => true
  | .config _ => true
  | .ifBlk _ _ => false
  | .mainmenu _ => true
  | .menu _ bs _ _ _ => blocksResolved bs
  | .menuConfig _ => true
  | .source _ => false

/-- All blocks in the list are fully resolved. -/
def blocksResolved : List Block → Bool
  | [] => true
  | b :: rest => blockResolved b && blocksResolved rest

end

/-- A concrete config used by witnesses: named `X`, no attributes. -/
def sampleConfig : Config :=
  { name := "X", ty := .bool, prompt := { title := "X", condition := none },
    defaults := [], env := none, dependsOn := [], selects := [], implies := [],
    ranges := [], help := none, comments := [] }

/-! ## C4: where source expansions land in the parent's block list -/

/-- Source-evaluation collaborator for the C4 counterexample: every source
expands to the single block `Mainmenu "A"`. -/
def c4E : Source → Except KConfigErrorKind (List Block) :=
  fun _ => .ok [.mainmenu "A"]

/-- The source statement used in the C4 counterexample. -/
def c4Src : Source :=
  { filename := "f", optional := false, relative := false, baseDir := "/b" }

/-- Blocks that the resolver loop keeps in one step without recursing:
`Choice`, `Config`, `Mainmenu`, `MenuConfig` (not `Menu`/`If`/`Source`). -/
def blockPlain : Block → Bool
  | .choice _ => true
  | .config _ => true
  | .mainmenu _ => true
  | .menuConfig _ => true
  | _ => false

/-- All blocks in the list are plain. -/
def blocksPlain (l : List Block) : Bool := l.all blockPlain

/-! ## Source resolution (source.rs, `impl ResolveBlock for Source`)

Collaborators are abstracted as function parameters: `expand` is
shellexpand's `env_with_context` over the variable-lookup context, and
`fromFile`/`fromInline` are the recursive parse-and-resolve of a file
(`KConfig::from_file`) and of inline content supplied by the context. -/

/-- Model of `std::env::VarError`, the cause inside shellexpand's `LookupError`. -/
inductive VarError where
  | notPresent
  | notUnicode
deriving DecidableEq, Repr

/-- shellexpand's `LookupError`: the failing variable and its cause. -/
structure LookupError where
  varName : String
  cause : VarError
deriving DecidableEq, Repr

/-- The `inline:` pseudo-filename scheme (`INLINE_PREFIX` in source.rs). -/
def inlineScheme : String := "inline:"

/-- Model of `str::strip_prefix` against the inline scheme (expressed over the
character lists so that it evaluates definitionally). -/
def stripInline (s : String) : Option String :=
  if inlineScheme.data.isPrefixOf s.data
  then some (String.mk (s.data.drop inlineScheme.data.length))
  else none

/-- Model of `Path::join` on the string model of paths (no claim depends on path
normalisation). -/
def joinPath (base rel : String) : String := base ++ "/" ++ rel

/-- Model of `Source::resolve_block` (source.rs): expand `${VAR}` references in the
filename (`NotPresent` ⇒ `UnknownEnv`, `NotUnicode` ⇒ `InvalidEnv`); an
`inline:`-prefixed result is read from the context instead of disk; otherwise
join the filename onto the applicable base directory (the source's own
precomputed one if `relative`) and recursively read that file.  On failure,
only a `NotFound` I/O error on an `optional` source is absorbed into "zero
additional blocks"; every other error propagates. -/
def Source.resolveBlock
    (expand : String → Except LookupError String)
    (fromFile : String → Except KConfigErrorKind (List Block))
    (fromInline : String → Except KConfigErrorKind (List Block))
    (baseDir : String) (s : Source) : Except KConfigErrorKind (List Block) :=
  match expand s.filename with
  | .error e =>
    .error (match e.cause with
      | .notPresent => .unknownEnv e.varName
      | .notUnicode => .invalidEnv e.varName)
  | .ok sf =>
    match stripInline sf with
    | some inline => fromInline inline
    | none =>
      let bd := if s.relative then s.baseDir else baseDir
      let path := joinPath bd sf
      match fromFile path with
      | .ok blocks => .ok blocks
      | .error e =>
        match e with
        | .io ioe =>
          if ioe ≠ .notFound ∨ s.optional = false then .error (.io ioe)
          else .ok []
        | e2 => .error e2

/-! ## Path interning (location.rs, `cache_path`)

The Rust cache is a process-wide `Mutex<HashMap<PathBuf, &'static PathBuf>>`
whose values are `Box::leak`ed allocations.  A pointer is modelled as an
index into the append-only list of allocations (`heap`); the map holds
(path, pointer) pairs.  Paths are strings (content equality). -/

/-- The path cache state: allocations in allocation order, plus the map from
path content to pointer. -/
structure PathCache where
  heap : List String
  map : List (String × Nat)
deriving DecidableEq, Repr

/-- Model of `HashMap::get` on the map model. -/
def lookupPath : List (String × Nat) → String → Option Nat
  | [], _ => none
  | (k, v) :: rest, p => if k = p then some v else lookupPath rest p

/-- Model of `cache_path` (location.rs): return the cached pointer for the path if
present; otherwise leak a new allocation holding (a clone of) the path,
insert it into the map, and return it. -/
def cachePath (st : PathCache) (p : String) : Nat × PathCache :=
  match lookupPath st.map p with
  | some ptr => (ptr, st)
  | none =>
    let ptr := st.heap.length
    (ptr, ⟨st.heap ++ [p], st.map ++ [(p, ptr)]⟩)

/-- A sequence of further `cache_path` calls (the "at any time in the
process" part of C10). -/
def runCalls (st : PathCache) : List String → PathCache
  | [] => st
  | q :: qs => runCalls (cachePath st q).2 qs

/-- Cache well-formedness: every map entry points at a live allocation
holding exactly the key, and keys are unique. -/
def PathCache.WF (st : PathCache) : Prop :=
  (∀ q i, (q, i) ∈ st.map → st.heap.get? i = some q)
  ∧ (st.map.map Prod.fst).Nodup

/-! ## Expression display (expr.rs, `impl Display for Expr`) -/

/-- Model of `impl Display for ExprCmpOp` (expr.rs).  Note: `Eq` renders as `"=="`,
although the lexer's operator for equality is the single `=` (and
`impl Display for Token` renders `Token::Eq` as `"="`). -/
def ExprCmpOp.display : ExprCmpOp → String
  | ExprCmpOp.eq => "=="
  | ExprCmpOp.ne => "!="
  | ExprCmpOp.lt => "<"
  | ExprCmpOp.le => "<="
  | ExprCmpOp.gt => ">"
  | ExprCmpOp.ge => ">="

/-- Model of `impl Display for Expr` (expr.rs): operands of a comparison or of `!`
are parenthesized when they are `And`/`Or` (plus `Cmp` under `!`); operands
of `&&` are parenthesized when they are `Or`; operands of `||` are never
parenthesized. -/
def Expr.display : Expr → String
  | .sym s => s
  | .hex i => "0x" ++ natToHex i
  | .int i => toString i
  | .str s => rustDebugStr s
  | .cmp op lhs rhs =>
    (match lhs with
     | .and _ _ | .or _ _ => "(" ++ lhs.display ++ ")"
     | _ => lhs.display)
    ++ " " ++ op.display ++ " " ++
    (match rhs with
     | .and _ _ | .or _ _ => "(" ++ rhs.display ++ ")"
     | _ => rhs.display)
  | .not e =>
    "!" ++
    (match e with
     | .cmp _ _ _ | .and _ _ | .or _ _ => "(" ++ e.display ++ ")"
     | _ => e.display)
  | .and lhs rhs =>
    (match lhs with
     | .or _ _ => "(" ++ lhs.display ++ ")"
     | _ => lhs.display)
    ++ " && " ++
    (match rhs with
     | .or _ _ => "(" ++ rhs.display ++ ")"
     | _ => rhs.display)
  | .or lhs rhs => lhs.display ++ " || " ++ rhs.display

/-! ## Lexer (parser/streams.rs `parse_line` and its helpers)

`parse_line` itself, `read_help_block`, `read_until` and
`parse_keyword_or_symbol` (token.rs) are translated from the source.  The
helpers `parse_comment`, `parse_string_literal`, `parse_integer_literal` and
`parse_hws0` that this iteration of streams.rs imports are not among the
repository's files (the in-repo comment.rs/string_literal.rs/whitespace.rs
are the nom-based variants of an earlier iteration with different
signatures); where no in-repo equivalent exists they are modelled from the
spec.  Tokens drop their locations, so the lexer's location side effects are
tracked only inside the scanner state. -/

/-- Consume one character, ignoring it (used where the source has already
peeked it); identity at end of input. -/
def pcForce (s : PeekableChars) : PeekableChars :=
  match s.next with
  | some (_, s1) => s1
  | none => s

/-- Consume characters while the predicate holds, returning them in order
(the peek/next loops of token.rs and integer.rs). -/
def readCharsWhile (p : Char → Bool) : Nat → PeekableChars → (List Char × PeekableChars)
  | 0, s => ([], s)
  | n + 1, s =>
    match s.peek with
    | some c =>
      if p c then
        let r := readCharsWhile p n (pcForce s)
        (c :: r.1, r.2)
      else ([], s)
    | none => ([], s)

/-- Modelled from the spec: `parse_comment` as imported by streams.rs is not
among the repository's files.  Spec 4.2: comments run from `#` to the end of
the line and are stripped (the newline itself is left for `parse_line`). -/
def parseComment (s : PeekableChars) : PeekableChars :=
  ((pcForce s).readUntil (fun c => c = '\n')).2

/-- Modelled from the spec: `parse_hws0` as imported by streams.rs is not
among the repository's files; the in-repo nom variant `hws0`
(whitespace.rs) recognises runs of a space, a tab, or an escaped newline
`\`+newline, and that is mirrored here.  Returns the consumed indentation. -/
def parseHws0 : Nat → PeekableChars → (String × PeekableChars)
  | 0, s => ("", s)
  | n + 1, s =>
    match s.remaining with
    | ' ' :: _ =>
      let r := parseHws0 n (pcForce s)
      (" " ++ r.1, r.2)
    | '\t' :: _ =>
      let r := parseHws0 n (pcForce s)
      ("\t" ++ r.1, r.2)
    | '\\' :: '\n' :: _ =>
      let r := parseHws0 n (pcForce (pcForce s))
      ("\\\n" ++ r.1, r.2)
    | _ => ("", s)

/-- Keyword table of token.rs (`KEYWORDS`). -/
def keywords : List (String × Token) :=
  [("---help---", .help), ("allnoconfig_y", .allNoConfigY), ("bool", .bool),
   ("boolean", .bool), ("choice", .choice), ("comment", .comment),
   ("config", .config), ("def_bool", .defBool), ("def_hex", .defHex),
   ("def_int", .defInt), ("def_string", .defString),
   ("def_tristate", .defTristate), ("default", .default),
   ("defconfig_list", .defConfigList), ("depends", .depends),
   ("endchoice", .endChoice), ("endif", .endIf), ("endmenu", .endMenu),
   ("env", .env), ("grsource", .orsource), ("gsource", .osource),
   ("help", .help), ("hex", .hex), ("if", .kwIf), ("imply", .imply),
   ("int", .int), ("mainmenu", .mainmenu), ("menu", .menu),
   ("menuconfig", .menuConfig), ("modules", .modules), ("on", .on),
   ("option", .option), ("optional", .optional), ("orsource", .orsource),
   ("osource", .osource), ("prompt", .prompt), ("range", .range),
   ("rsource", .rsource), ("select", .select), ("source", .source),
   ("string", .string), ("tristate", .tristate), ("visible", .visible)]

/-- Model of `phf::Map::get` over the keyword table. -/
def keywordFor : List (String × Token) → String → Option Token
  | [], _ => none
  | (k, t) :: rest, id => if k = id then some t else keywordFor rest id

/-- Model of `parse_keyword_or_symbol` (token.rs): the first character must be
alphabetic or `_`; further characters are consumed while alphanumeric or
`_`; the result is a keyword when in the table, a free `Symbol` otherwise.
The source's Unicode `is_alphabetic`/`is_alphanumeric` are modelled with
ASCII classes (the spec's identifier grammar is `[A-Za-z_][A-Za-z0-9_]*`). -/
def parseKeywordOrSymbol (fuel : Nat) (s : PeekableChars) : Res (Token × PeekableChars) :=
  match s.next with
  | none => .err (.unexpectedEof .keywordOrSymbol)
  | some (c, s1) =>
    if ¬(c.isAlpha ∨ c = '_') then .err (.unexpected (String.singleton c) .keywordOrSymbol)
    else
      let r := readCharsWhile (fun c => c.isAlphanum || c = '_') fuel s1
      let ident := String.mk (c :: r.1)
      match keywordFor keywords ident with
      | some kw => .ok (kw, r.2)
      | none => .ok (.sym ident, r.2)

/-- Numeric value of a list of decimal digits. -/
def decToNat (ds : List Char) : Nat :=
  ds.foldl (fun a c => a * 10 + (c.toNat - '0'.toNat)) 0

/-- Rust `char::is_ascii_hexdigit`. -/
def isHexDigitChar (c : Char) : Bool :=
  ('0' ≤ c && c ≤ '9') || ('a' ≤ c && c ≤ 'f') || ('A' ≤ c && c ≤ 'F')

/-- Numeric value of one hexadecimal digit. -/
def hexDigitVal (c : Char) : Nat :=
  if '0' ≤ c ∧ c ≤ '9' then c.toNat - '0'.toNat
  else if 'a' ≤ c ∧ c ≤ 'f' then c.toNat - 'a'.toNat + 10
  else if 'A' ≤ c ∧ c ≤ 'F' then c.toNat - 'A'.toNat + 10
  else 0

/-- Numeric value of a list of hexadecimal digits. -/
def hexToNat (ds : List Char) : Nat :=
  ds.foldl (fun a c => a * 16 + hexDigitVal c) 0

/-- Numeric value of a list of octal digits. -/
def octToNat (ds : List Char) : Nat :=
  ds.foldl (fun a c => a * 8 + (c.toNat - '0'.toNat)) 0

/-- Model of `i64::from_str_radix(s, 10)`: optional sign, then at least one decimal
digit (overflow is not modelled). -/
def strToIntDec : List Char → Option Int
  | [] => none
  | '+' :: ds =>
    if ds ≠ [] ∧ ds.all Char.isDigit then some (decToNat ds) else none
  | '-' :: ds =>
    if ds ≠ [] ∧ ds.all Char.isDigit then some (-(decToNat ds : Int)) else none
  | ds =>
    if ds.all Char.isDigit then some (decToNat ds) else none

/-- Model of `parse_dec_literal` (integer.rs): optional `+`/`-`, a run of decimal
digits, parsed in base 10. -/
def parseDecLiteral (fuel : Nat) (s : PeekableChars) : Res (Token × PeekableChars) :=
  match s.peek with
  | none => .err (.unexpectedEof .integerLiteral)
  | some c =>
    let (lit0, s1) : List Char × PeekableChars :=
      if c = '+' ∨ c = '-' then ([c], pcForce s) else ([], s)
    let r := readCharsWhile Char.isDigit fuel s1
    let lit := lit0 ++ r.1
    match strToIntDec lit with
    | some v => .ok (.intLit v, r.2)
    | none => .err (.invalidInteger (String.mk lit))

/-- Model of `parse_hex_literal` (integer.rs): `0`, `x`/`X`, then a non-empty run of
hex digits (the error for a wrong radix character formats the consumed `0`,
as in the source). -/
def parseHexLiteral (fuel : Nat) (s : PeekableChars) : Res (Token × PeekableChars) :=
  match s.next with
  | none => .err (.unexpectedEof .integerLiteral)
  | some (c, s1) =>
    if c ≠ '0' then .err (.unexpected (String.singleton c) .integerLiteral)
    else
      match s1.next with
      | none => .err (.unexpectedEof .integerLiteral)
      | some (rc, s2) =>
        if rc ≠ 'x' ∧ rc ≠ 'X' then .err (.unexpected (String.singleton c) .integerLiteral)
        else
          let r := readCharsWhile isHexDigitChar fuel s2
          if r.1 = [] then .err (.invalidInteger (String.mk ['0', rc]))
          else .ok (.hexLit (hexToNat r.1), r.2)

/-- Model of `parse_dec_oct_literal` (integer.rs): a leading `0`, then a run of octal
digits; `0` alone (or no further octal digit) is the integer 0, otherwise
the octal value is returned as a *hex* literal token, as in the source. -/
def parseDecOctLiteral (fuel : Nat) (s : PeekableChars) : Res (Token × PeekableChars) :=
  match s.peek with
  | none => .err (.unexpectedEof .integerLiteral)
  | some c =>
    if c ≠ '0' then .err (.unexpected (String.singleton c) .integerLiteral)
    else
      let r := readCharsWhile (fun c => '0' ≤ c && c ≤ '7') fuel s
      if r.1 = [] ∨ r.1 = ['0'] then .ok (.intLit 0, r.2)
      else .ok (.hexLit (octToNat r.1), r.2)

/-- Model of `parse_int_hex_literal` (integer.rs): dispatch on the leading
characters. -/
def parseIntHexLiteral (fuel : Nat) (s : PeekableChars) : Res (Token × PeekableChars) :=
  match s.peek with
  | none => .err (.unexpectedEof .any)
  | some c =>
    if c = '+' ∨ c = '-' then parseDecLiteral fuel s
    else if s.startsWithChars ['0', 'x'] ∨ s.startsWithChars ['0', 'X'] then
      parseHexLiteral fuel s
    else if s.startsWithChars ['0'] then parseDecOctLiteral fuel s
    else if ¬c.isDigit then .err (.unexpected (String.singleton c) .integerLiteral)
    else parseDecLiteral fuel s

/-- Modelled from the spec: `parse_integer_literal` as imported by
streams.rs (which wraps its result in `Token::IntLit`) is not among the
repository's files; spec 4.2 gives the same numeric grammar as the in-repo
`parse_int_hex_literal` (integer.rs), so this runs that and takes the
numeric value. -/
def parseIntegerLiteral (fuel : Nat) (s : PeekableChars) : Res (Int × PeekableChars) :=
  match parseIntHexLiteral fuel s with
  | .ok (.intLit i, s1) => .ok (i, s1)
  | .ok (.hexLit n, s1) => .ok ((n : Int), s1)
  | .ok _ => .err (.parseErr "non-numeric token")
  | .err e => .err e
  | .fuel => .fuel

/-- Value of the single-character string escapes of spec 4.2
(`\a \b \e \f \n \r \t \v \\ \' \/ \"`). -/
def simpleEscape (c : Char) : Option Char :=
  if c = 'a' then some (Char.ofNat 7)
  else if c = 'b' then some (Char.ofNat 8)
  else if c = 'e' then some (Char.ofNat 27)
  else if c = 'f' then some (Char.ofNat 12)
  else if c = 'n' then some '\n'
  else if c = 'r' then some '\r'
  else if c = 't' then some '\t'
  else if c = 'v' then some (Char.ofNat 11)
  else if c = '\\' then some '\\'
  else if c = '\'' then some '\''
  else if c = '/' then some '/'
  else if c = '"' then some '"'
  else none

/-- Modelled from the spec: `parse_string_literal` as called by streams.rs
(scanner plus the opening quote character) is not among the repository's
files (string_literal.rs is the earlier nom iteration).  Spec 4.2: the
literal is delimited by the matching quote; the interior supports the
single-character escapes, a greedy hex escape `\xHH...`, a Unicode escape
`\u` + braced 1–6 hex digits, and backslash-whitespace elision; an
unterminated literal or malformed escape is a fatal error. -/
def stringLitGo (q : Char) : Nat → PeekableChars → List Char → Res (String × PeekableChars)
  | 0, _, _ => .fuel
  | n + 1, s, acc =>
    match s.next with
    | none => .err (.unexpectedEof .stringLiteral)
    | some (c, s1) =>
      if c = q then .ok (String.mk acc, s1)
      else if c = '\\' then
        match s1.next with
        | none => .err (.unexpectedEof .stringLiteral)
        | some (e, s2) =>
          match simpleEscape e with
          | some v => stringLitGo q n s2 (acc ++ [v])
          | none =>
            if e = 'x' then
              let r := readCharsWhile isHexDigitChar n s2
              if r.1 = [] then .err (.missing .hexDigit)
              else if h : (hexToNat r.1).isValidChar then
                stringLitGo q n r.2 (acc ++ [Char.ofNatAux (hexToNat r.1) h])
              else .err (.invalidUnicode (hexToNat r.1))
            else if e = 'u' then
              match s2.next with
              | some ('\x7b', s3) =>
                let r := readCharsWhile isHexDigitChar n s3
                if r.1 = [] ∨ r.1.length > 6 then .err (.missing .unicodeEscape)
                else
                  match r.2.next with
                  | some ('\x7d', s4) =>
                    if h : (hexToNat r.1).isValidChar then
                      stringLitGo q n s4 (acc ++ [Char.ofNatAux (hexToNat r.1) h])
                    else .err (.invalidUnicode (hexToNat r.1))
                  | _ => .err (.missing .unicodeEscape)
              | _ => .err (.missing .unicodeEscape)
            else if e.isWhitespace then
              let r := readCharsWhile Char.isWhitespace n s2
              stringLitGo q n r.2 acc
            else .err (.syntaxErr (String.singleton e))
      else stringLitGo q n s1 (acc ++ [c])

/-- Modelled from the spec (see `stringLitGo`): consume the opening quote,
then the interior up to the matching quote. -/
def parseStringLiteral (fuel : Nat) (s : PeekableChars) (q : Char) : Res (String × PeekableChars) :=
  match s.next with
  | none => .err (.unexpectedEof .stringLiteral)
  | some (_, s1) => stringLitGo q fuel s1 []

/-- The loop of `read_help_block` (streams.rs): lines starting with the
reference indent contribute their content (indent stripped), blank lines
contribute a newline, and the first other line stops the block.
`chars.advance(indent.len())` fails only off a character boundary, which
cannot happen for a matched prefix; that impossible panic is mapped to a
syntax error. -/
def helpLoop (indent : String) : Nat → PeekableChars → String → Res (String × PeekableChars)
  | 0, _, _ => .fuel
  | n + 1, s, acc =>
    if s.isEmpty then .ok (acc, s)
    else if s.startsWithChars indent.data then
      match s.advance (utf8Len indent.data) with
      | some s1 =>
        let r := s1.readUntil (fun c => c = '\n')
        helpLoop indent n r.2 (acc ++ r.1)
      | none => .err (.syntaxErr "advance off a char boundary")
    else if s.startsWithChars ['\n'] then
      helpLoop indent n (pcForce s) (acc ++ "\n")
    else .ok (acc, s)

/-- Model of `read_help_block` (streams.rs): the indentation of the first line sets
the reference indent (no indent at all is an error); its content starts the
help text, and `helpLoop` gathers the remaining lines. -/
def readHelpBlock (fuel : Nat) (s : PeekableChars) : Res (String × PeekableChars) :=
  let (indent, s1) := parseHws0 fuel s
  if indent = "" then
    .err (.unexpected
      (match s1.peek with
       | some c => String.singleton c
       | none => "<EOF>") .whitespace)
  else
    let r := s1.readUntil (fun c => c = '\n')
    helpLoop indent fuel r.2 r.1

/-- The `tokens.len() == 1 && tokens[0].token == Token::Help` test of
`parse_line` (streams.rs). -/
def isLoneHelp : List Token → Bool
  | [.help] => true
  | _ => false

/-- Model of `parse_line` (streams.rs): tokenize the next non-empty logical line.
The accumulator is the tokens of the current line; a `#` comment or a
newline ends the line (restarting on the next line while no token has been
seen, and capturing a help block when the line so far is exactly the `help`
keyword); the remaining branches mirror the source's match arms in order,
including `&&`/`||` requiring their second character, `!=`/`<=`/`>=`
lookahead, the backslash-newline line continuation, and the syntax error
for any other character. -/
def parseLineGo : Nat → PeekableChars → List Token → Res (List Token × PeekableChars)
  | 0, _, _ => .fuel
  | n + 1, s, tokens =>
    match s.peek with
    | none => .ok (tokens, s)
    | some c =>
      if c = '#' ∨ c = '\n' then
        let s1 := if c = '#' then parseComment s else pcForce s
        if tokens.isEmpty then parseLineGo n s1 []
        else if isLoneHelp tokens then
          match readHelpBlock n s1 with
          | .ok (txt, s2) => .ok (tokens ++ [.strLit txt], s2)
          | .err e => .err e
          | .fuel => .fuel
        else .ok (tokens, s1)
      else if c = '"' ∨ c = '\'' then
        match parseStringLiteral n s c with
        | .ok (lit, s1) => parseLineGo n s1 (tokens ++ [.strLit lit])
        | .err e => .err e
        | .fuel => .fuel
      else if c = '+' ∨ c = '-' ∨ c.isDigit then
        match parseIntegerLiteral n s with
        | .ok (v, s1) => parseLineGo n s1 (tokens ++ [.intLit v])
        | .err e => .err e
        | .fuel => .fuel
      else if c.isWhitespace then parseLineGo n (pcForce s) tokens
      else if c.isAlpha ∨ c = '_' then
        match parseKeywordOrSymbol n s with
        | .ok (t, s1) => parseLineGo n s1 (tokens ++ [t])
        | .err e => .err e
        | .fuel => .fuel
      else if c = '&' ∧ s.startsWithChars ['&', '&'] then
        parseLineGo n (pcForce (pcForce s)) (tokens ++ [.land])
      else if c = '|' ∧ s.startsWithChars ['|', '|'] then
        parseLineGo n (pcForce (pcForce s)) (tokens ++ [.lor])
      else if c = '=' then parseLineGo n (pcForce s) (tokens ++ [.eq])
      else if c = '!' then
        let s1 := pcForce s
        match s1.peek with
        | some '=' => parseLineGo n (pcForce s1) (tokens ++ [.ne])
        | _ => parseLineGo n s1 (tokens ++ [.bang])
      else if c = '(' then parseLineGo n (pcForce s) (tokens ++ [.lparen])
      else if c = ')' then parseLineGo n (pcForce s) (tokens ++ [.rparen])
      else if c = '<' then
        let s1 := pcForce s
        match s1.peek with
        | some '=' => parseLineGo n (pcForce s1) (tokens ++ [.le])
        | _ => parseLineGo n s1 (tokens ++ [.lt])
      else if c = '>' then
        let s1 := pcForce s
        match s1.peek with
        | some '=' => parseLineGo n (pcForce s1) (tokens ++ [.ge])
        | _ => parseLineGo n s1 (tokens ++ [.gt])
      else if c = '\\' ∧ s.startsWithChars ['\\', '\n'] then
        parseLineGo n (pcForce (pcForce s)) tokens
      else .err (.syntaxErr (String.singleton c))

/-- Model of `parse_line` on a fresh scanner over the given text, keeping only the
token list. -/
def lineTokens (fuel : Nat) (input : String) : Res (List Token) :=
  match parseLineGo fuel ⟨input.data, 0, 1, 1⟩ [] with
  | .ok (ts, _) => .ok ts
  | .err e => .err e
  | .fuel => .fuel

/-! ## C8: `advance(n)` versus repeated `next()` -/

/-- C8 (code bug): on input "ab", `advance(2)` reaches the same byte offset
as two `next()` calls but a *different* column (2 instead of 3), because the
loop in `advance` breaks before updating the location for the final consumed
character — the location bookkeeping silently desyncs.  The panic conditions
the claim describes do hold: advancing past the end of the input, or to a
non-character-boundary offset (1 byte into the 2-byte 'é'), is a panic
(`none`), shown in the last two conjuncts. -/
theorem c8_advance_location_desync :
    PeekableChars.advance ⟨['a', 'b'], 0, 1, 1⟩ 2 = some ⟨[], 2, 1, 2⟩
    ∧ ((PeekableChars.next ⟨['a', 'b'], 0, 1, 1⟩).bind fun r => PeekableChars.next r.2)
        = some ('b', ⟨[], 2, 1, 3⟩)
    ∧ (2 : Nat) ≠ 3
    ∧ PeekableChars.advance ⟨['a'], 0, 1, 1⟩ 2 = none
    ∧ PeekableChars.advance ⟨['é'], 0, 1, 1⟩ 1 = none := by
  refine ⟨rfl, rfl, by decide, rfl, rfl⟩

/-! ## C9: location update of the scanner's `next()` -/

/-- C9 counterexample: consuming a tab with the scanner's `next()` from
column 1 advances the column to 2 — not to the next multiple-of-8 tab stop
(which would be 8) as the claim states. -/
theorem c9_tab_not_tabstop :
    PeekableChars.next ⟨['\t'], 0, 1, 1⟩ = some ('\t', ⟨[], 1, 1, 2⟩)
    ∧ (2 : Nat) ≠ 8 := by
  refine ⟨rfl, by decide⟩

/-- C9 (amended): for every character consumed by the scanner's `next()`, a
newline increments the line and resets the column to 1, and every other
character — including tab — advances the column by exactly 1 (the
multiple-of-8 tab-stop rule exists only in the other parser iteration's
`read_line`, not in this scanner); the byte offset always advances by the
character's UTF-8 size. -/
theorem c9_next_column_rule (c : Char) (rest : List Char) (off l col : Nat) :
    PeekableChars.next ⟨c :: rest, off, l, col⟩
      = some (c, ⟨rest, off + c.utf8Size,
          if c = '\n' then l + 1 else l,
          if c = '\n' then 1 else col + 1⟩) := rfl

theorem blocksResolved_append (xs ys : List Block) :
    blocksResolved (xs ++ ys) = (blocksResolved xs && blocksResolved ys) := by
  induction xs with
  | nil => simp [blocksResolved]
  | cons x xs ih => simp [blocksResolved, ih, Bool.and_assoc]

/-- Invariant of the resolver loop: if every block already kept in `acc` is
fully resolved and the loop succeeds, the final list is fully resolved. -/
theorem resolveGo_resolved (E : Source → Except KConfigErrorKind (List Block)) :
    ∀ (fuel : Nat) (acc pending out : List Block),
      blocksResolved acc = true → resolveGo E fuel acc pending = .ok out →
      blocksResolved out = true := by
  intro fuel
  induction fuel with
  | zero =>
    intro acc pending out _ h
    simp [resolveGo] at h
  | succ n ih =>
    intro acc pending out hacc h
    match pending with
    | [] =>
      simp only [resolveGo] at h
      cases h
      exact hacc
    | .source s :: rest =>
      simp only [resolveGo] at h
      cases hE : E s with
      | ok bs =>
        rw [hE] at h
        exact ih acc (rest ++ bs) out hacc h
      | error e =>
        rw [hE] at h
        cases h
    | .ifBlk c items :: rest =>
      simp only [resolveGo] at h
      exact ih acc (rest ++ ifEvaluate c items) out hacc h
    | .menu p bs dep vis com :: rest =>
      simp only [resolveGo] at h
      cases hInner : resolveGo E n [] bs with
      | ok bs2 =>
        rw [hInner] at h
        have hbs2 : blocksResolved bs2 = true := ih [] bs bs2 rfl hInner
        have hacc2 : blocksResolved (acc ++ [.menu p bs2 dep vis com]) = true := by
          simp [blocksResolved_append, hacc, blocksResolved, blockResolved, hbs2]
        exact ih _ rest out hacc2 h
      | err e =>
        rw [hInner] at h
        cases h
      | fuel =>
        rw [hInner] at h
        cases h
    | .choice c :: rest =>
      simp only [resolveGo] at h
      refine ih _ rest out ?_ h
      simp [blocksResolved_append, hacc, blocksResolved, blockResolved]
    | .config c :: rest =>
      simp only [resolveGo] at h
      refine ih _ rest out ?_ h
      simp [blocksResolved_append, hacc, blocksResolved, blockResolved]
    | .mainmenu t :: rest =>
      simp only [resolveGo] at h
      refine ih _ rest out ?_ h
      simp [blocksResolved_append, hacc, blocksResolved, blockResolved]
    | .menuConfig c :: rest =>
      simp only [resolveGo] at h
      refine ih _ rest out ?_ h
      simp [blocksResolved_append, hacc, blocksResolved, blockResolved]

/-! ## C1: the resolver's output contains no `If` or `Source` node -/

/-- C1: for every input tree and every successful run of the resolver
(any source-evaluation collaborator, any recursion budget), the output's
block lists at every nesting depth — including inside every `Menu` — contain
only `Config`, `MenuConfig`, `Choice`, `Menu` and `Mainmenu` nodes; no `If`
or `Source` node remains. -/
theorem c1_no_if_or_source_in_output
    (E : Source → Except KConfigErrorKind (List Block))
    (fuel : Nat) (blocks out : List Block)
    (h : resolveBlocks E fuel blocks = .ok out) :
    blocksResolved out = true :=
  resolveGo_resolved E fuel [] blocks out rfl h

/-- Witness for C1 at a concrete input: a tree holding a `Source` and an
`If` block resolves successfully, and the theorem yields purity of the
output. -/
theorem c1_no_if_or_source_in_output_witness :
    resolveBlocks (fun _ => .ok [.mainmenu "A"]) 5
        [.source { filename := "f", optional := false, relative := false, baseDir := "/b" },
         .ifBlk (.sym "C") [.mainmenu "T"]]
      = .ok [.mainmenu "A", .mainmenu "T"]
    ∧ blocksResolved [.mainmenu "A", .mainmenu "T"] = true := by
  have h : resolveBlocks (fun _ => .ok [.mainmenu "A"]) 5
      [.source { filename := "f", optional := false, relative := false, baseDir := "/b" },
       .ifBlk (.sym "C") [.mainmenu "T"]]
      = .ok [.mainmenu "A", .mainmenu "T"] := by
    simp [resolveBlocks, resolveGo, ifEvaluate, pushCond]
  exact ⟨h, c1_no_if_or_source_in_output (fun _ => .ok [.mainmenu "A"]) 5 _ _ h⟩

/-! ## C2: inherited if-condition appended after pre-existing depends -/

/-- C2: resolving `if COND ... endif` around a config whose dependency list
is exactly `[D]` yields that config with dependency list exactly
`[D, COND]` — the inherited condition is appended after the pre-existing
entry. -/
theorem c2_if_cond_appended_after
    (E : Source → Except KConfigErrorKind (List Block))
    (cond d : Expr) (c : Config) (h : c.dependsOn = [d]) :
    resolveBlocks E 3 [.ifBlk cond [.config c]]
      = .ok [.config { c with dependsOn := [d, cond] }] := by
  simp [resolveBlocks, resolveGo, ifEvaluate, pushCond, h]

/-- Witness for C2 at a concrete input. -/
theorem c2_if_cond_appended_after_witness :
    resolveBlocks (fun _ => .ok []) 3
        [.ifBlk (.sym "COND") [.config { sampleConfig with dependsOn := [.sym "D"] }]]
      = .ok [.config { sampleConfig with dependsOn := [.sym "D", .sym "COND"] }] :=
  c2_if_cond_appended_after (fun _ => .ok []) (.sym "COND") (.sym "D") _ rfl

/-! ## C3: nested ifs append a single `And(A, B)` node -/

/-- C3: resolving `if A` containing `if B` containing `config X` appends to
X's dependency list exactly one entry, the single conjunction `And(A, B)` —
not the two separate entries `A` and `B`. -/
theorem c3_nested_if_single_and
    (E : Source → Except KConfigErrorKind (List Block))
    (a b : Expr) (c : Config) :
    resolveBlocks E 3 [.ifBlk a [.ifBlk b [.config c]]]
      = .ok [.config { c with dependsOn := c.dependsOn ++ [Expr.and a b] }]
    ∧ c.dependsOn ++ [Expr.and a b] ≠ c.dependsOn ++ [a, b] := by
  constructor
  · simp [resolveBlocks, resolveGo, ifEvaluate, pushCond]
  · simp

/-- C4 counterexample: resolving `[source f, mainmenu "X"]`, where `f`
expands to `[mainmenu "A"]`, yields `[mainmenu "X", mainmenu "A"]` — the
expansion is appended after the trailing sibling, not
`[mainmenu "A", mainmenu "X"]` as splicing at the Source's original position
would produce. -/
theorem c4_counterexample_not_in_place :
    resolveBlocks c4E 4 [.source c4Src, .mainmenu "X"]
      = .ok [.mainmenu "X", .mainmenu "A"]
    ∧ [Block.mainmenu "X", Block.mainmenu "A"]
      ≠ [Block.mainmenu "A", Block.mainmenu "X"] := by
  refine ⟨rfl, ?_⟩
  simp

theorem resolveGo_run_plain (E : Source → Except KConfigErrorKind (List Block)) :
    ∀ (ps acc : List Block), blocksPlain ps = true →
      resolveGo E (ps.length + 1) acc ps = .ok (acc ++ ps) := by
  intro ps
  induction ps with
  | nil => intro acc _; simp [resolveGo]
  | cons p ps ih =>
    intro acc hp
    simp only [blocksPlain, List.all_cons, Bool.and_eq_true] at hp
    have step : resolveGo E ((p :: ps).length + 1) acc (p :: ps)
        = resolveGo E (ps.length + 1) (acc ++ [p]) ps := by
      cases p <;> simp_all [blockPlain, resolveGo]
    rw [step, ih (acc ++ [p]) (by simp [blocksPlain, hp.2])]
    simp

theorem resolveGo_skip_plain (E : Source → Except KConfigErrorKind (List Block)) :
    ∀ (pre : List Block) (m : Nat) (acc rest : List Block), blocksPlain pre = true →
      resolveGo E (pre.length + m) acc (pre ++ rest)
        = resolveGo E m (acc ++ pre) rest := by
  intro pre
  induction pre with
  | nil => intro m acc rest _; simp
  | cons p pre ih =>
    intro m acc rest hp
    simp only [blocksPlain, List.all_cons, Bool.and_eq_true] at hp
    have harith : (p :: pre).length + m = (pre.length + m) + 1 := by
      simp [List.length_cons]; omega
    rw [harith]
    have step : resolveGo E ((pre.length + m) + 1) acc (p :: (pre ++ rest))
        = resolveGo E (pre.length + m) (acc ++ [p]) (pre ++ rest) := by
      cases p <;> simp_all [blockPlain, resolveGo]
    simp only [List.cons_append, step]
    rw [ih m (acc ++ [p]) rest (by simp [blocksPlain, hp.2])]
    simp

/-- C4 (amended): for a block list `pre ++ [source s] ++ post` (with `pre`,
`post`, and the expansion all plain blocks), resolution removes the `Source`
node and appends the sourced file's blocks at the *end* of the parent's
block list: the result is `pre ++ post ++ expansion`.  The relative order of
the surviving siblings and the internal order of the expansion are
preserved, but the expanded blocks move to the end instead of staying at the
Source node's original position. -/
theorem c4_source_appended_at_end
    (E : Source → Except KConfigErrorKind (List Block))
    (s : Source) (bs pre post : List Block)
    (hE : E s = .ok bs) (hpre : blocksPlain pre = true)
    (hpost : blocksPlain post = true) (hbs : blocksPlain bs = true) :
    resolveBlocks E (pre.length + (post.length + bs.length + 2))
        (pre ++ .source s :: post)
      = .ok (pre ++ post ++ bs) := by
  unfold resolveBlocks
  rw [resolveGo_skip_plain E pre _ [] _ hpre]
  have harith : post.length + bs.length + 2 = (post.length + (bs.length + 1)) + 1 := by
    omega
  rw [harith]
  have step : resolveGo E ((post.length + (bs.length + 1)) + 1) ([] ++ pre)
      (.source s :: post)
      = resolveGo E (post.length + (bs.length + 1)) ([] ++ pre) (post ++ bs) := by
    simp [resolveGo, hE]
  rw [step, resolveGo_skip_plain E post (bs.length + 1) ([] ++ pre) bs hpost,
    resolveGo_run_plain E bs (([] ++ pre) ++ post) hbs]
  simp [List.append_assoc]

/-- Witness for C4's amended theorem at a concrete input. -/
theorem c4_source_appended_at_end_witness :
    resolveBlocks c4E (1 + (1 + 1 + 2)) [.mainmenu "P", .source c4Src, .mainmenu "X"]
      = .ok [.mainmenu "P", .mainmenu "X", .mainmenu "A"] :=
  c4_source_appended_at_end c4E c4Src [.mainmenu "A"] [.mainmenu "P"] [.mainmenu "X"]
    rfl rfl rfl rfl

/-! ## C5: optional source with a missing file -/

/-- C5: with the file read failing with `Io(NotFound)`, an optional source
(`osource`) resolves to zero additional blocks and no error, while a
non-optional `source` for the same path fails with that `Io(NotFound)`
error; and any other I/O error (here an arbitrary kind `k ≠ NotFound`) is
fatal even when the source is optional. -/
theorem c5_osource_notfound_absorbed
    (expand : String → Except LookupError String)
    (fromInline : String → Except KConfigErrorKind (List Block))
    (bd : String) (s : Source) (f' : String) (k : IoErrorKind)
    (hexp : expand s.filename = .ok f') (hinl : stripInline f' = none)
    (hk : k ≠ .notFound) :
    (s.optional = true →
      Source.resolveBlock expand (fun _ => .error (.io .notFound)) fromInline bd s
        = .ok [])
    ∧ (s.optional = false →
      Source.resolveBlock expand (fun _ => .error (.io .notFound)) fromInline bd s
        = .error (.io .notFound))
    ∧ Source.resolveBlock expand (fun _ => .error (.io k)) fromInline bd s
        = .error (.io k) := by
  refine ⟨fun hopt => ?_, fun hopt => ?_, ?_⟩
  · simp [Source.resolveBlock, hexp, hinl, hopt]
  · simp [Source.resolveBlock, hexp, hinl, hopt]
  · simp [Source.resolveBlock, hexp, hinl, hk]

/-- Witness for C5 at a concrete input (`osource "missing.file"` versus
`source "missing.file"`, plus a `PermissionDenied` failure on the optional
one). -/
theorem c5_osource_notfound_absorbed_witness :
    (Source.resolveBlock (fun x => .ok x) (fun _ => .error (.io .notFound))
        (fun _ => .ok []) "/b"
        { filename := "missing.file", optional := true, relative := false, baseDir := "/b" }
      = .ok [])
    ∧ (Source.resolveBlock (fun x => .ok x) (fun _ => .error (.io .notFound))
        (fun _ => .ok []) "/b"
        { filename := "missing.file", optional := false, relative := false, baseDir := "/b" }
      = .error (.io .notFound))
    ∧ (Source.resolveBlock (fun x => .ok x) (fun _ => .error (.io .permissionDenied))
        (fun _ => .ok []) "/b"
        { filename := "missing.file", optional := true, relative := false, baseDir := "/b" }
      = .error (.io .permissionDenied)) := by
  refine ⟨?_, ?_, ?_⟩
  · exact (c5_osource_notfound_absorbed (fun x => .ok x) (fun _ => .ok []) "/b"
      { filename := "missing.file", optional := true, relative := false, baseDir := "/b" }
      "missing.file" .permissionDenied rfl (by decide) (by decide)).1 rfl
  · exact (c5_osource_notfound_absorbed (fun x => .ok x) (fun _ => .ok []) "/b"
      { filename := "missing.file", optional := false, relative := false, baseDir := "/b" }
      "missing.file" .permissionDenied rfl (by decide) (by decide)).2.1 rfl
  · exact (c5_osource_notfound_absorbed (fun x => .ok x) (fun _ => .ok []) "/b"
      { filename := "missing.file", optional := true, relative := false, baseDir := "/b" }
      "missing.file" .permissionDenied rfl (by decide) (by decide)).2.2

/-- A cache hit returns the stored pointer and leaves the state unchanged. -/
theorem cachePath_lookup_some {st : PathCache} {p : String} {i : Nat}
    (h : lookupPath st.map p = some i) : cachePath st p = (i, st) := by
  unfold cachePath
  rw [h]

theorem lookupPath_mem {m : List (String × Nat)} {p : String} {i : Nat}
    (h : lookupPath m p = some i) : (p, i) ∈ m := by
  induction m with
  | nil => simp [lookupPath] at h
  | cons e rest ih =>
    obtain ⟨k, v⟩ := e
    by_cases hk : k = p
    · subst hk
      simp [lookupPath] at h
      simp [h]
    · simp [lookupPath, hk] at h
      exact List.mem_cons_of_mem _ (ih h)

theorem mem_lookupPath {m : List (String × Nat)} {p : String} {i : Nat}
    (hmem : (p, i) ∈ m) (hnd : (m.map Prod.fst).Nodup) : lookupPath m p = some i := by
  induction m with
  | nil => simp at hmem
  | cons e rest ih =>
    obtain ⟨k, v⟩ := e
    simp only [List.map_cons, List.nodup_cons] at hnd
    rcases List.mem_cons.mp hmem with heq | hrest
    · cases heq
      simp [lookupPath]
    · have hkp : k ≠ p := by
        intro hkp
        subst hkp
        exact hnd.1 (List.mem_map.mpr ⟨(k, i), hrest, rfl⟩)
      simp [lookupPath, hkp]
      exact ih hrest hnd.2

theorem lookupPath_append_some {m₁ m₂ : List (String × Nat)} {p : String} {i : Nat}
    (h : lookupPath m₁ p = some i) : lookupPath (m₁ ++ m₂) p = some i := by
  induction m₁ with
  | nil => simp [lookupPath] at h
  | cons e rest ih =>
    obtain ⟨k, v⟩ := e
    by_cases hk : k = p
    · subst hk
      simp [lookupPath] at h ⊢
      exact h
    · simp [lookupPath, hk] at h ⊢
      exact ih h

/-- One `cache_path` call only appends to the heap and the map. -/
theorem cachePath_extends (st : PathCache) (p : String) :
    ∃ th tm, (cachePath st p).2.heap = st.heap ++ th
      ∧ (cachePath st p).2.map = st.map ++ tm := by
  unfold cachePath
  cases h : lookupPath st.map p with
  | some ptr => exact ⟨[], [], by simp, by simp⟩
  | none => exact ⟨[p], [(p, st.heap.length)], rfl, rfl⟩

/-- Any sequence of `cache_path` calls only appends to the heap and map. -/
theorem runCalls_extends (ps : List String) :
    ∀ st : PathCache, ∃ th tm, (runCalls st ps).heap = st.heap ++ th
      ∧ (runCalls st ps).map = st.map ++ tm := by
  induction ps with
  | nil => intro st; exact ⟨[], [], by simp [runCalls], by simp [runCalls]⟩
  | cons q qs ih =>
    intro st
    obtain ⟨th₁, tm₁, hh₁, hm₁⟩ := cachePath_extends st q
    obtain ⟨th₂, tm₂, hh₂, hm₂⟩ := ih (cachePath st q).2
    refine ⟨th₁ ++ th₂, tm₁ ++ tm₂, ?_, ?_⟩
    · simp [runCalls, hh₂, hh₁]
    · simp [runCalls, hm₂, hm₁]

/-- Model of `cache_path` preserves well-formedness. -/
theorem cachePath_wf {st : PathCache} (hwf : st.WF) (p : String) :
    (cachePath st p).2.WF := by
  unfold cachePath
  cases h : lookupPath st.map p with
  | some ptr => exact hwf
  | none =>
    constructor
    · intro q i hmem
      simp only [List.mem_append, List.mem_singleton] at hmem
      rcases hmem with hmem | hmem
      · have := hwf.1 q i hmem
        have hlt : i < st.heap.length := (List.get?_eq_some.mp this).1
        rw [List.get?_append hlt]
        exact this
      · cases hmem
        simp [List.get?_concat_length]
    · simp only [List.map_append, List.map_cons, List.map_nil]
      refine List.Nodup.append hwf.2 (by simp) ?_
      intro a ha hb
      simp only [List.mem_map] at ha
      simp only [List.map_cons, List.map_nil, List.mem_singleton] at hb
      subst hb
      obtain ⟨⟨k, v⟩, hkv, hk⟩ := ha
      cases hk
      have := mem_lookupPath hkv hwf.2
      rw [this] at h
      cases h

/-- Any sequence of calls preserves well-formedness. -/
theorem runCalls_wf (ps : List String) :
    ∀ st : PathCache, st.WF → (runCalls st ps).WF := by
  induction ps with
  | nil => intro st hwf; simpa [runCalls] using hwf
  | cons q qs ih =>
    intro st hwf
    exact ih _ (cachePath_wf hwf q)

/-- After `cache_path st p`, the map holds an entry for `p` with the
returned pointer. -/
theorem cachePath_mem (st : PathCache) (p : String) :
    (p, (cachePath st p).1) ∈ (cachePath st p).2.map := by
  unfold cachePath
  cases h : lookupPath st.map p with
  | some ptr => exact lookupPath_mem h
  | none => simp

/-! ## C10: determinism, idempotence and stability of `cache_path` -/

/-- C10: from any well-formed cache state, `cache_path p` returns a pointer
whose content equals `p`; the result state is well-formed; and after *any*
sequence of further `cache_path` calls (any paths, any order), the pointer
still holds the same content (entries are never removed or mutated) and a
later `cache_path` call with a content-equal path returns the identical
interned pointer. -/
theorem c10_cachePath_stable (st : PathCache) (p : String) (hwf : st.WF) :
    (cachePath st p).2.WF
    ∧ (cachePath st p).2.heap.get? (cachePath st p).1 = some p
    ∧ ∀ ps : List String,
        (runCalls (cachePath st p).2 ps).heap.get? (cachePath st p).1 = some p
        ∧ (cachePath (runCalls (cachePath st p).2 ps) p).1 = (cachePath st p).1 := by
  have hwf₁ : (cachePath st p).2.WF := cachePath_wf hwf p
  have hmem₁ : (p, (cachePath st p).1) ∈ (cachePath st p).2.map := cachePath_mem st p
  have hget₁ : (cachePath st p).2.heap.get? (cachePath st p).1 = some p :=
    hwf₁.1 p _ hmem₁
  refine ⟨hwf₁, hget₁, fun ps => ?_⟩
  obtain ⟨th, tm, hh, hm⟩ := runCalls_extends ps (cachePath st p).2
  have hlt : (cachePath st p).1 < (cachePath st p).2.heap.length :=
    (List.get?_eq_some.mp hget₁).1
  constructor
  · rw [hh, List.get?_append hlt]
    exact hget₁
  · have hlook₁ : lookupPath (cachePath st p).2.map p = some (cachePath st p).1 :=
      mem_lookupPath hmem₁ hwf₁.2
    have hlook₂ : lookupPath (runCalls (cachePath st p).2 ps).map p
        = some (cachePath st p).1 := by
      rw [hm]
      exact lookupPath_append_some hlook₁
    rw [cachePath_lookup_some hlook₂]

/-- Witness for C10 from the empty cache. -/
theorem c10_cachePath_stable_witness :
    (cachePath ⟨[], []⟩ "Kconfig").2.WF
    ∧ (cachePath ⟨[], []⟩ "Kconfig").2.heap.get? (cachePath ⟨[], []⟩ "Kconfig").1
        = some "Kconfig"
    ∧ ((runCalls (cachePath ⟨[], []⟩ "Kconfig").2 ["other", "Kconfig"]).heap.get?
          (cachePath ⟨[], []⟩ "Kconfig").1 = some "Kconfig"
        ∧ (cachePath (runCalls (cachePath ⟨[], []⟩ "Kconfig").2 ["other", "Kconfig"])
            "Kconfig").1 = (cachePath ⟨[], []⟩ "Kconfig").1) := by
  have h := c10_cachePath_stable ⟨[], []⟩ "Kconfig" ⟨by simp, by simp⟩
  exact ⟨h.1, h.2.1, h.2.2 ["other", "Kconfig"]⟩

/-! ## C7: the display/re-parse round trip -/

/-- C7 (code bug): the round trip fails at the expression `A = B`.  The
token line of `"A = B"` parses to `Cmp(Eq, A, B)`; its display routine
renders the operator as `"=="`, which the lexer tokenizes as *two* `Eq`
tokens (`=` is the equality operator; there is no `==`), and re-parsing
fails with `Unexpected("=", Expected::Expr)` instead of producing a
structurally equal tree. -/
theorem c7_roundtrip_fails_on_eq :
    lineTokens 64 "A = B" = .ok [.sym "A", .eq, .sym "B"]
    ∧ Expr.parse 32 [.sym "A", .eq, .sym "B"]
        = .ok (.cmp .eq (.sym "A") (.sym "B"), [])
    ∧ Expr.display (.cmp .eq (.sym "A") (.sym "B")) = "A == B"
    ∧ lineTokens 64 "A == B" = .ok [.sym "A", .eq, .eq, .sym "B"]
    ∧ Expr.parse 32 [.sym "A", .eq, .eq, .sym "B"]
        = .err (.unexpected "=" .expr) := by
  exact ⟨rfl, rfl, rfl, rfl, rfl⟩

/-! ## C6: precedence shape of `x && y || z` -/

/-- C6: parsing the token line `x && y || z` yields the right-leaning tree
`And(x, Or(y, z))` (each binary production recurses back to the full
expression grammar on its right-hand side), not the left-associated
`Or(And(x, y), z)`. -/
theorem c6_and_or_right_leaning (x y z : String) :
    Expr.parse 32 [.sym x, .land, .sym y, .lor, .sym z]
      = .ok (.and (.sym x) (.or (.sym y) (.sym z)), [])
    ∧ Expr.and (.sym x) (.or (.sym y) (.sym z))
      ≠ Expr.or (.and (.sym x) (.sym y)) (.sym z) := by
  exact ⟨rfl, fun h => Expr.noConfusion h⟩

end KC

